import Mathlib

/-!
Verification of the echtzeitinfo departure-board pipeline.

Shallow embedding of the core logic of `src/api.py` (payload parsing and
station grouping), `src/display.py` (refresh-cycle controller) and
`src/renderer.py` (direction-text truncation).  Python strings are modelled
as `List Char`; Python `list.sort(key=...)` / `sorted(key=...)` are stable
sorts and are modelled by the stable `List.insertionSort`; JSON objects are
modelled as structures whose possibly-missing fields are `Option`s, so that
`d.get(k, default)` becomes `Option.getD`.
-/

/-- Python `str` as a list of characters. -/
abbrev Str := List Char

/-- Coerce a Lean string literal to the character-list model. -/
def str (s : String) : Str := s.data

/-- Python `str.upper()` (ASCII-faithful). -/
def pyUpper (s : Str) : Str := s.map Char.toUpper

/-- Python `str.strip()`: drop leading and trailing whitespace. -/
def pyStrip (s : Str) : Str :=
  ((s.dropWhile Char.isWhitespace).reverse.dropWhile Char.isWhitespace).reverse

/-- Helper for `pyTitle`: the `Bool` is whether the previous character was
alphabetic (cased), in which case the current letter is lowered, otherwise
capitalised. -/
def pyTitleAux : Bool → Str → Str
  | _, [] => []
  | prev, c :: cs =>
    if c.isAlpha then
      (if prev then c.toLower else c.toUpper) :: pyTitleAux true cs
    else
      c :: pyTitleAux false cs

/-- Python `str.title()` (ASCII-faithful): capitalise the first letter of
every alphabetic run, lowercase the rest. -/
def pyTitle (s : Str) : Str := pyTitleAux false s

/-- Python string comparison `a <= b`: lexicographic by code point, a proper
prefix is smaller. -/
def strLeB : Str → Str → Bool
  | [], _ => true
  | _ :: _, [] => false
  | a :: as, b :: bs => if a < b then true else if b < a then false else strLeB as bs

/-- Python string comparison `a < b`. -/
def strLtB : Str → Str → Bool
  | [], [] => false
  | [], _ :: _ => true
  | _ :: _, [] => false
  | a :: as, b :: bs => if a < b then true else if b < a then false else strLtB as bs

/-! ## Data model of `api.py`

`fetch_departures` returns a list of monitor dicts
`{rbl, name, towards, departures}`; each departure dict is
`{countdown, realtime}`.  `group_by_station` reuses those same dicts as the
`lines` entries of its per-station output. -/

/-- One parsed departure dict `{countdown, realtime}`. -/
structure Dep where
  countdown : Int
  realtime : Bool
deriving DecidableEq, Repr

/-- One parsed monitor dict `{rbl, name, towards, departures}` as returned by
`fetch_departures`; `rbl` is `None` when the payload omits the location
metadata. -/
structure Monitor where
  rbl : Option Int
  name : Str
  towards : Str
  departures : List Dep
deriving DecidableEq, Repr

/-- One configured station `{name, rbls}` from `config["stations"]`. -/
structure StationCfg where
  name : Str
  rbls : List Int
deriving DecidableEq, Repr

/-- One element of the output of `group_by_station`: `{name, lines}`. -/
structure StationView where
  name : Str
  lines : List Monitor
deriving DecidableEq, Repr

/-! ## JSON payload model

The response shape consumed by `fetch_departures`:
`{message:{serverCode,value}, data:{monitors:[{locationStop:{properties:{attributes:{rbl}}}, lines:[{name, towards, departures:{departure:[{departureTime:{countdown, timePlanned, timeReal}}]}}]}]}}`.
Every field access in the code is a `.get` with a default, so every field
here is an `Option`.  The `message`/`serverCode` part of the payload only
drives logging, never the returned value, and is omitted. -/

structure DepTime where
  countdown : Option Int
  timePlanned : Option Str
  timeReal : Option Str
deriving DecidableEq, Repr

structure DepJson where
  departureTime : Option DepTime
deriving DecidableEq, Repr

structure DeparturesObj where
  departure : Option (List DepJson)
deriving DecidableEq, Repr

structure LineJson where
  name : Option Str
  towards : Option Str
  departures : Option DeparturesObj
deriving DecidableEq, Repr

structure AttributesJson where
  rbl : Option Int
deriving DecidableEq, Repr

structure PropertiesJson where
  attributes : Option AttributesJson
deriving DecidableEq, Repr

structure LocationStopJson where
  properties : Option PropertiesJson
deriving DecidableEq, Repr

structure MonitorJson where
  locationStop : Option LocationStopJson
  lines : Option (List LineJson)
deriving DecidableEq, Repr

structure DataJson where
  monitors : Option (List MonitorJson)
deriving DecidableEq, Repr

structure Payload where
  data : Option DataJson
deriving DecidableEq, Repr

/-! ## `fetch_departures` (parsing part) -/

/-- Parse of one entry of `departures.departure`: a departure is kept only
when `countdown` is present; `realtime` is
`dep_time.get("timePlanned") != dep_time.get("timeReal")` where a missing
`departureTime` dict defaults to the empty dict (all fields missing). -/
def parseDep (dep : DepJson) : Option Dep :=
  let dt := dep.departureTime.getD ⟨none, none, none⟩
  match dt.countdown with
  | some c => some ⟨c, decide (dt.timePlanned ≠ dt.timeReal)⟩
  | none => none

/-- Parse of a departure array (`for dep in ...: if countdown is not None`). -/
def parseDeps (l : List DepJson) : List Dep := l.filterMap parseDep

/-- Parse of one entry of `monitor["lines"]`:
`name = line_data.get("name", "?").strip()`,
`towards = line_data.get("towards", "?").strip().title()`,
departures from `line_data.get("departures", {}).get("departure", [])`. -/
def parseLine (rbl : Option Int) (line : LineJson) : Monitor :=
  { rbl := rbl
    name := pyStrip (line.name.getD (str "?"))
    towards := pyTitle (pyStrip (line.towards.getD (str "?")))
    departures := parseDeps ((line.departures.getD ⟨none⟩).departure.getD []) }

/-- Parse of one monitor entry: the rbl is read through the
`locationStop.properties.attributes.rbl` chain of `.get(..., {})`, then one
output dict is appended per line entry. -/
def parseMonitor (m : MonitorJson) : List Monitor :=
  let rbl := (((m.locationStop.getD ⟨none⟩).properties.getD ⟨none⟩).attributes.getD ⟨none⟩).rbl
  (m.lines.getD []).map (parseLine rbl)

/-- Parsing part of `fetch_departures`: flatten all monitors of the payload. -/
def parsePayload (p : Payload) : List Monitor :=
  ((p.data.getD ⟨none⟩).monitors.getD []).flatMap parseMonitor

/-- `fetch_departures` with the HTTP transport abstracted: `none` stands for
a request failure (network error, timeout, non-success status), on which the
function returns `[]`; otherwise the decoded JSON payload is parsed. -/
def fetch_departures (resp : Option Payload) : List Monitor :=
  match resp with
  | none => []
  | some p => parsePayload p

/-! ## `group_by_station` -/

/-- The case-insensitive merge key `(line["name"].upper(), line["towards"].upper())`. -/
def ciKey (m : Monitor) : Str × Str := (pyUpper m.name, pyUpper m.towards)

/-- Comparison of departures by the sort key `d["countdown"]`. -/
def depLe (a b : Dep) : Prop := a.countdown ≤ b.countdown

instance : DecidableRel depLe := fun a b => inferInstanceAs (Decidable (a.countdown ≤ b.countdown))

instance : IsTotal Dep depLe := ⟨fun a b => Int.le_total a.countdown b.countdown⟩

instance : IsTrans Dep depLe := ⟨fun _ _ _ h1 h2 => Int.le_trans h1 h2⟩

/-- `merged.sort(key=lambda d: d["countdown"])`: a stable sort by countdown. -/
def sortDeps (l : List Dep) : List Dep := List.insertionSort depLe l

/-- One step of filling the `seen` dict: if the record's case-insensitive key
is already present, the existing entry keeps its casing and its departures
become the sorted concatenation; otherwise the record is appended (Python
dicts preserve insertion order). -/
def mergeLine (seen : List Monitor) (line : Monitor) : List Monitor :=
  match seen with
  | [] => [line]
  | m :: rest =>
    if ciKey m = ciKey line then
      { m with departures := sortDeps (m.departures ++ line.departures) } :: rest
    else
      m :: mergeLine rest line

/-- The `seen` dict after the whole dedup loop, in insertion order. -/
def dedupLines (lines : List Monitor) : List Monitor := lines.foldl mergeLine []

/-- Python tuple comparison on the sort key `(l["name"], l["towards"])`. -/
def lineLe (a b : Monitor) : Prop :=
  (if a.name = b.name then strLeB a.towards b.towards else strLtB a.name b.name) = true

/-- Strict version of `lineLe`: `(a.name, a.towards) < (b.name, b.towards)`. -/
def lineLt (a b : Monitor) : Prop :=
  (if a.name = b.name then strLtB a.towards b.towards else strLtB a.name b.name) = true

instance : DecidableRel lineLe := fun _ _ => inferInstanceAs (Decidable (_ = true))

instance : DecidableRel lineLt := fun _ _ => inferInstanceAs (Decidable (_ = true))

/-- Membership test `m.get("rbl") in station_rbls`: `None` is in no set of
integers. -/
def monitorMatches (st : StationCfg) (m : Monitor) : Bool :=
  match m.rbl with
  | some r => st.rbls.contains r
  | none => false

/-- The body of the station loop of `group_by_station`: filter the monitors
by rbl membership, dedup/merge them, and sort the surviving line dicts by
`(name, towards)` (Python `sorted` is stable). -/
def station_view (monitors : List Monitor) (st : StationCfg) : StationView :=
  { name := st.name
    lines := List.insertionSort lineLe (dedupLines (monitors.filter (monitorMatches st))) }

/-- `group_by_station`: one output dict per configured station, in
configuration order. -/
def group_by_station (monitors : List Monitor) (stations : List StationCfg) : List StationView :=
  stations.map (station_view monitors)

/-! ## `display.py`: the refresh controller -/

/-- The `config` dict handed to `Display.__init__`; every lookup in the code
is a `.get` with a default. -/
structure DisplayConfig where
  simulate : Option Bool
  output_dir : Option Str
  type : Option Str
  full_refresh_every : Option Nat
deriving DecidableEq, Repr

/-- The fields of a `Display` object. -/
structure DisplayState where
  simulate : Bool
  output_dir : Str
  epd_type : Str
  full_refresh_every : Nat
  cycle_count : Nat
  epd : Option Unit
deriving DecidableEq, Repr

/-- `Display.__init__`. -/
def Display.mk_state (c : DisplayConfig) : DisplayState :=
  { simulate := c.simulate.getD false
    output_dir := c.output_dir.getD (str "output")
    epd_type := c.type.getD (str "epd7in5_V2")
    full_refresh_every := c.full_refresh_every.getD 5
    cycle_count := 0
    epd := none }

/-- What one `Display.update` call does to the outside world: save a PNG in
simulate mode, or drive the hardware with a full or fast refresh. -/
inductive DisplayEffect where
  | saveImage (fullRefresh : Bool)
  | hwFull
  | hwFast
deriving DecidableEq, Repr

/-- `Display.update`: increment `_cycle_count`, classify the cycle as a full
refresh iff the incremented counter is divisible by `_full_refresh_every`,
then either save the image (simulate mode) or refresh the hardware.  The
image argument and the timestamped file name only feed the effect, not the
state, and are abstracted away. -/
def Display.update (s : DisplayState) : DisplayState × Bool × DisplayEffect :=
  let s2 := { s with cycle_count := s.cycle_count + 1 }
  let needsFull := decide (s2.cycle_count % s.full_refresh_every = 0)
  ( s2, needsFull,
    if s.simulate then .saveImage needsFull
    else if needsFull then .hwFull else .hwFast )

/-- Classifications of `n` consecutive `Display.update` calls, in order. -/
def runCycles : DisplayState → Nat → List Bool
  | _, 0 => []
  | s, n + 1 =>
    let r := Display.update s
    r.2.1 :: runCycles r.1 n

/-! ## `renderer.py`: direction truncation in `_draw_line_row`

Pixel widths come from font metrics (`draw.textbbox`), an external
collaborator; they are modelled as an arbitrary width function
`w : Str → Nat`.  The loop is
`while len(direction) > 3: direction = direction[:-1]; if w(direction + ellipsis) <= max: direction += ellipsis; break`.
It is run on a fuel of the initial length, which the loop can never
exhaust since every iteration shortens the string. -/

/-- The ellipsis suffix appended by the truncation loop. -/
def ellipsisChar : Char := Char.ofNat 0x2026

/-- The truncation `while` loop of `_draw_line_row`, fuelled. -/
def truncLoop (w : Str → Nat) (maxW : Nat) : Nat → Str → Str
  | 0, d => d
  | fuel + 1, d =>
    if d.length > 3 then
      if w (d.dropLast ++ [ellipsisChar]) ≤ maxW then d.dropLast ++ [ellipsisChar]
      else truncLoop w maxW fuel d.dropLast
    else d

/-- The direction-fitting logic of `_draw_line_row`: the loop runs only when
the rendered width of the direction exceeds the available width. -/
def fitDirection (w : Str → Nat) (maxW : Nat) (direction : Str) : Str :=
  if w direction > maxW then truncLoop w maxW direction.length direction
  else direction

/-! ## Order lemmas for the Python string comparison -/

theorem strLeB_refl : ∀ a : Str, strLeB a a = true
  | [] => rfl
  | c :: cs => by simp [strLeB, strLeB_refl cs]

theorem strLtB_irrefl : ∀ a : Str, strLtB a a = false
  | [] => rfl
  | c :: cs => by simp [strLtB, strLtB_irrefl cs]

theorem strLeB_iff : ∀ a b : Str, strLeB a b = true ↔ (strLtB a b = true ∨ a = b)
  | [], [] => by simp [strLeB, strLtB]
  | [], _ :: _ => by simp [strLeB, strLtB]
  | _ :: _, [] => by simp [strLeB, strLtB]
  | a :: as, b :: bs => by
    by_cases h1 : a < b
    · simp [strLeB, strLtB, h1]
    · by_cases h2 : b < a
      · have hne : a ≠ b := fun h => absurd (h ▸ h2) (lt_irrefl a)
        simp [strLeB, strLtB, h1, h2, hne]
      · have hab : a = b := le_antisymm (not_lt.mp h2) (not_lt.mp h1)
        subst hab
        simp [strLeB, strLtB, strLeB_iff as bs]

theorem strLeB_total : ∀ a b : Str, strLeB a b = true ∨ strLeB b a = true
  | [], _ => Or.inl rfl
  | _ :: _, [] => Or.inr rfl
  | a :: as, b :: bs => by
    rcases lt_trichotomy a b with h | h | h
    · left; simp [strLeB, h]
    · subst h
      rcases strLeB_total as bs with h2 | h2
      · left; simp [strLeB, h2]
      · right; simp [strLeB, h2]
    · right; simp [strLeB, h]

theorem strLeB_trans : ∀ a b c : Str, strLeB a b = true → strLeB b c = true → strLeB a c = true
  | [], _, _, _, _ => rfl
  | _ :: _, [], _, h, _ => by simp [strLeB] at h
  | _ :: _, _ :: _, [], _, h => by simp [strLeB] at h
  | a :: as, b :: bs, c :: cs, h1, h2 => by
    by_cases hab : a < b
    · by_cases hbc : b < c
      · simp [strLeB, lt_trans hab hbc]
      · by_cases hcb : c < b
        · simp only [strLeB, hbc, if_false, hcb, if_true] at h2
          exact absurd h2 (Bool.false_ne_true)
        · have : b = c := le_antisymm (not_lt.mp hcb) (not_lt.mp hbc)
          subst this
          simp [strLeB, hab]
    · by_cases hba : b < a
      · simp only [strLeB, hab, if_false, hba, if_true] at h1
        exact absurd h1 (Bool.false_ne_true)
      · have : a = b := le_antisymm (not_lt.mp hba) (not_lt.mp hab)
        subst this
        simp only [strLeB] at h1 h2 ⊢
        by_cases hac : a < c
        · simp [hac]
        · by_cases hca : c < a
          · simp [hca] at h2
            exact absurd h2 (lt_asymm hca)
          · simp only [hac, if_false, hca, if_true] at h1 h2 ⊢
            simp only [lt_irrefl, if_false] at h1
            exact strLeB_trans as bs cs h1 h2

theorem strLeB_antisymm : ∀ a b : Str, strLeB a b = true → strLeB b a = true → a = b
  | [], [], _, _ => rfl
  | [], _ :: _, _, h => by simp [strLeB] at h
  | _ :: _, [], h, _ => by simp [strLeB] at h
  | a :: as, b :: bs, h1, h2 => by
    by_cases hab : a < b
    · simp only [strLeB, hab, lt_asymm hab, if_true, if_false] at h2
      exact absurd h2 (Bool.false_ne_true)
    · by_cases hba : b < a
      · simp only [strLeB, hab, hba, if_true, if_false] at h1
        exact absurd h1 (Bool.false_ne_true)
      · have : a = b := le_antisymm (not_lt.mp hba) (not_lt.mp hab)
        subst this
        simp only [strLeB, lt_irrefl, if_false] at h1 h2
        rw [strLeB_antisymm as bs h1 h2]

theorem strLtB_ne : ∀ {a b : Str}, strLtB a b = true → a ≠ b := by
  intro a b h hab
  subst hab
  rw [strLtB_irrefl] at h
  exact absurd h (Bool.false_ne_true)

theorem strLtB_of_le_of_ne {a b : Str} (h : strLeB a b = true) (hne : a ≠ b) :
    strLtB a b = true :=
  ((strLeB_iff a b).mp h).resolve_right hne

/-! ## Order instances for the line sort key `(name, towards)` -/

instance : IsTotal Monitor lineLe := by
  constructor
  intro a b
  unfold lineLe
  by_cases h : a.name = b.name
  · rw [if_pos h, if_pos h.symm]
    exact strLeB_total a.towards b.towards
  · have h2 : ¬ b.name = a.name := fun hh => h hh.symm
    simp only [h, h2, if_false]
    rcases strLeB_total a.name b.name with hle | hle
    · exact Or.inl (strLtB_of_le_of_ne hle h)
    · exact Or.inr (strLtB_of_le_of_ne hle h2)

theorem strLtB_le {a b : Str} (h : strLtB a b = true) : strLeB a b = true :=
  (strLeB_iff a b).mpr (Or.inl h)

theorem strLtB_trans {a b c : Str} (h1 : strLtB a b = true) (h2 : strLtB b c = true) :
    strLtB a c = true := by
  have hle : strLeB a c = true := strLeB_trans _ _ _ (strLtB_le h1) (strLtB_le h2)
  refine strLtB_of_le_of_ne hle fun hac => ?_
  subst hac
  exact strLtB_ne h2 (strLeB_antisymm _ _ (strLtB_le h2) (strLtB_le h1))

instance : IsTrans Monitor lineLe := by
  constructor
  intro a b c h1 h2
  unfold lineLe at h1 h2 ⊢
  by_cases hab : a.name = b.name
  · by_cases hbc : b.name = c.name
    · have hac : a.name = c.name := hab.trans hbc
      simp only [hab, hbc, hac, if_true] at h1 h2 ⊢
      exact strLeB_trans _ _ _ h1 h2
    · have hac : ¬ a.name = c.name := fun h => hbc (hab ▸ h)
      simp only [hab, hbc, hac, if_true, if_false] at h1 h2 ⊢
      exact hab ▸ h2
  · by_cases hbc : b.name = c.name
    · have hac : ¬ a.name = c.name := fun h => hab (hbc ▸ h)
      simp only [hab, hbc, hac, if_false, if_true] at h1 h2 ⊢
      exact hbc ▸ h1
    · simp only [hab, hbc, if_false] at h1 h2
      have hlt : strLtB a.name c.name = true := strLtB_trans h1 h2
      simp only [strLtB_ne hlt, if_false]
      exact hlt

/-- Strictness: two monitors related by `lineLe` whose case-insensitive keys
differ are related strictly. -/
theorem lineLt_of_lineLe_of_ciKey_ne {a b : Monitor} (h : lineLe a b)
    (hne : ciKey a ≠ ciKey b) : lineLt a b := by
  unfold lineLe at h
  unfold lineLt
  by_cases hn : a.name = b.name
  · simp only [hn, if_true] at h ⊢
    refine strLtB_of_le_of_ne h fun ht => ?_
    exact hne (by simp [ciKey, hn, ht])
  · simpa only [hn, if_false] using h

/-! ## Structural lemmas about the `seen` dict fold -/

theorem mergeLine_keys (acc : List Monitor) (r : Monitor) :
    (mergeLine acc r).map ciKey =
      if ciKey r ∈ acc.map ciKey then acc.map ciKey else acc.map ciKey ++ [ciKey r] := by
  induction acc with
  | nil => simp [mergeLine]
  | cons m rest ih =>
    show (if ciKey m = ciKey r then _ else m :: mergeLine rest r).map ciKey = _
    by_cases h : ciKey m = ciKey r
    · rw [if_pos h]
      have hmem : ciKey r ∈ (m :: rest).map ciKey := by
        rw [List.map_cons, h]
        exact List.mem_cons_self _ _
      rw [if_pos hmem, List.map_cons, List.map_cons]
      rfl
    · have hne : ciKey r ≠ ciKey m := fun hh => h hh.symm
      rw [if_neg h, List.map_cons, ih, List.map_cons]
      by_cases hmem : ciKey r ∈ rest.map ciKey
      · rw [if_pos hmem, if_pos (List.mem_cons_of_mem _ hmem)]
      · rw [if_neg hmem, if_neg (fun hc => by
          rcases List.mem_cons.mp hc with hc | hc
          · exact hne hc
          · exact hmem hc), List.cons_append]

theorem mergeLine_of_not_mem {acc : List Monitor} {r : Monitor}
    (h : ciKey r ∉ acc.map ciKey) : mergeLine acc r = acc ++ [r] := by
  induction acc with
  | nil => rfl
  | cons m rest ih =>
    simp only [List.map_cons, List.mem_cons, not_or] at h
    have hne : ¬ ciKey m = ciKey r := fun hh => h.1 hh.symm
    simp [mergeLine, hne, ih h.2]

theorem mergeLine_nodup_keys {acc : List Monitor} {r : Monitor}
    (h : (acc.map ciKey).Nodup) : ((mergeLine acc r).map ciKey).Nodup := by
  rw [mergeLine_keys]
  by_cases hmem : ciKey r ∈ acc.map ciKey
  · simpa [hmem] using h
  · simp only [hmem, if_false]
    simp [List.nodup_append, h, hmem]

theorem dedupLines_aux_nodup_keys :
    ∀ (ls acc : List Monitor), (acc.map ciKey).Nodup →
      ((ls.foldl mergeLine acc).map ciKey).Nodup
  | [], _, h => h
  | r :: ls, acc, h =>
    dedupLines_aux_nodup_keys ls (mergeLine acc r) (mergeLine_nodup_keys h)

theorem dedupLines_nodup_keys (ls : List Monitor) :
    ((dedupLines ls).map ciKey).Nodup :=
  dedupLines_aux_nodup_keys ls [] List.nodup_nil

/-! ## Claim C8: refresh-cycle classification -/

/-- C8: `Display.update` increments the cycle counter by one on each new frame
and classifies the cycle as a full refresh exactly when the incremented
counter is divisible by `full_refresh_every`; in particular, for
`full_refresh_every = 5` (the default), cycles 5, 10, 15 are full and cycles
1 to 4 and 6 to 9 (indeed all others up to 15) are fast. -/
theorem C8_refresh_classification :
    (∀ s : DisplayState, 0 < s.full_refresh_every →
      (Display.update s).1.cycle_count = s.cycle_count + 1 ∧
        ((Display.update s).2.1 = true ↔ (s.cycle_count + 1) % s.full_refresh_every = 0)) ∧
    runCycles (Display.mk_state ⟨none, none, none, some 5⟩) 15 =
      [false, false, false, false, true, false, false, false, false, true,
        false, false, false, false, true] := by
  refine ⟨fun s _ => ⟨rfl, ?_⟩, by decide⟩
  simp [Display.update]

/-- Witness for C8 at the freshly constructed default-config display. -/
theorem C8_refresh_classification_witness :
    0 < (Display.mk_state ⟨none, none, none, some 5⟩).full_refresh_every ∧
      ((Display.update (Display.mk_state ⟨none, none, none, some 5⟩)).1.cycle_count =
          (Display.mk_state ⟨none, none, none, some 5⟩).cycle_count + 1 ∧
        ((Display.update (Display.mk_state ⟨none, none, none, some 5⟩)).2.1 = true ↔
          ((Display.mk_state ⟨none, none, none, some 5⟩).cycle_count + 1) %
              (Display.mk_state ⟨none, none, none, some 5⟩).full_refresh_every = 0)) :=
  ⟨by decide, C8_refresh_classification.1 _ (by decide)⟩

/-! ## Claim C10: simulate-mode update only bumps the counter -/

/-- C10: in simulate mode, one `Display.update` call increments `_cycle_count`
by exactly one, leaves every other field of the display state unchanged, emits
a save-image effect instead of a hardware refresh, and still computes the
refresh classification from the incremented counter. -/
theorem C10_simulate_update_frame (s : DisplayState) (h : s.simulate = true) :
    (Display.update s).1.cycle_count = s.cycle_count + 1 ∧
    (Display.update s).1.simulate = s.simulate ∧
    (Display.update s).1.output_dir = s.output_dir ∧
    (Display.update s).1.epd_type = s.epd_type ∧
    (Display.update s).1.full_refresh_every = s.full_refresh_every ∧
    (Display.update s).1.epd = s.epd ∧
    (Display.update s).2.2 = DisplayEffect.saveImage (Display.update s).2.1 ∧
    ((Display.update s).2.1 = true ↔
      (Display.update s).1.cycle_count % s.full_refresh_every = 0) := by
  refine ⟨rfl, rfl, rfl, rfl, rfl, rfl, ?_, by simp [Display.update]⟩
  simp [Display.update, h]

/-- A display state constructed for simulate mode. -/
def simDisplayState : DisplayState := Display.mk_state ⟨some true, none, none, none⟩

/-- Witness for C10 at a concrete simulate-mode state. -/
theorem C10_simulate_update_frame_witness :
    (Display.update simDisplayState).1.cycle_count = simDisplayState.cycle_count + 1 ∧
    (Display.update simDisplayState).1.simulate = simDisplayState.simulate ∧
    (Display.update simDisplayState).1.output_dir = simDisplayState.output_dir ∧
    (Display.update simDisplayState).1.epd_type = simDisplayState.epd_type ∧
    (Display.update simDisplayState).1.full_refresh_every = simDisplayState.full_refresh_every ∧
    (Display.update simDisplayState).1.epd = simDisplayState.epd ∧
    (Display.update simDisplayState).2.2 = DisplayEffect.saveImage (Display.update simDisplayState).2.1 ∧
    ((Display.update simDisplayState).2.1 = true ↔
      (Display.update simDisplayState).1.cycle_count % simDisplayState.full_refresh_every = 0) :=
  C10_simulate_update_frame simDisplayState (by decide)

/-! ## Claim C4: end-to-end Karlsplatz example -/

/-- The raw payload of the end-to-end example: stop 100 carries line "U4"
towards "heiligenstadt" with countdown 7, stop 101 carries line "u4" towards
"Heiligenstadt" with countdown 2. -/
def c4Payload : Payload :=
  ⟨some ⟨some
    [ ⟨some ⟨some ⟨some ⟨some 100⟩⟩⟩,
        some [⟨some (str "U4"), some (str "heiligenstadt"),
          some ⟨some [⟨some ⟨some 7, none, none⟩⟩]⟩⟩]⟩,
      ⟨some ⟨some ⟨some ⟨some 101⟩⟩⟩,
        some [⟨some (str "u4"), some (str "Heiligenstadt"),
          some ⟨some [⟨some ⟨some 2, none, none⟩⟩]⟩⟩]⟩ ]⟩⟩

/-- The configured station of the end-to-end example. -/
def c4Station : StationCfg := ⟨str "Karlsplatz", [100, 101]⟩

/-- C4: aggregating the two raw monitors for the single station Karlsplatz
(stop ids 100 and 101) yields exactly one station view holding exactly one
merged line with display casing "U4" / "Heiligenstadt" and countdowns [2, 7]
in ascending order. -/
theorem C4_end_to_end_karlsplatz :
    (group_by_station (fetch_departures (some c4Payload)) [c4Station]).length = 1 ∧
    ∀ sv ∈ group_by_station (fetch_departures (some c4Payload)) [c4Station],
      sv.name = str "Karlsplatz" ∧ sv.lines.length = 1 ∧
        ∀ ld ∈ sv.lines, ld.name = str "U4" ∧ ld.towards = str "Heiligenstadt" ∧
          ld.departures.map Dep.countdown = [2, 7] := by decide

/-! ## Claim C2: the `is_realtime` flag -/

/-- Modelled from the spec claim, for comparison with the code: the flag the
claim predicts, true only when both time fields are present and unequal,
false whenever either is missing. -/
def spec_is_realtime (dt : DepTime) : Bool :=
  match dt.timePlanned, dt.timeReal with
  | some p, some r => decide (p ≠ r)
  | _, _ => false

/-- A departure entry whose planned time is absent but whose actual time is
present. -/
def c2DepJson : DepJson := ⟨some ⟨some 5, none, some (str "07:00")⟩⟩

/-- Counterexample to C2 as stated: for a departure with `timePlanned`
missing and `timeReal` present, the code emits `realtime = true`
(`None != "07:00"`), while the claim demands `false` when either time field
is missing. -/
theorem C2_counterexample :
    parseDep c2DepJson = some ⟨5, true⟩ ∧
      spec_is_realtime ⟨some 5, none, some (str "07:00")⟩ = false := by decide

/-- C2 (amended): for every parsed departure, `is_realtime` is exactly the
inequality of the two optional time fields (`timePlanned != timeReal` with
missing modelled as null): both missing gives `false`, both present gives
`true` iff the values differ, and exactly one present gives `true`. -/
theorem C2_is_realtime_amended (dep : DepJson) (d : Dep) (h : parseDep dep = some d) :
    (d.realtime = true ↔
      (dep.departureTime.getD ⟨none, none, none⟩).timePlanned ≠
        (dep.departureTime.getD ⟨none, none, none⟩).timeReal) ∧
    ((dep.departureTime.getD ⟨none, none, none⟩).timePlanned = none →
      (dep.departureTime.getD ⟨none, none, none⟩).timeReal = none → d.realtime = false) ∧
    (∀ p r, (dep.departureTime.getD ⟨none, none, none⟩).timePlanned = some p →
      (dep.departureTime.getD ⟨none, none, none⟩).timeReal = some r →
      (d.realtime = true ↔ p ≠ r)) ∧
    (∀ p, (dep.departureTime.getD ⟨none, none, none⟩).timePlanned = some p →
      (dep.departureTime.getD ⟨none, none, none⟩).timeReal = none → d.realtime = true) ∧
    (∀ r, (dep.departureTime.getD ⟨none, none, none⟩).timePlanned = none →
      (dep.departureTime.getD ⟨none, none, none⟩).timeReal = some r → d.realtime = true) := by
  rcases dep with ⟨dto⟩
  rcases dto with _ | ⟨cd, tp, tr⟩
  · simp [parseDep] at h
  · rcases cd with _ | c
    · simp [parseDep] at h
    · simp only [parseDep, Option.getD, Option.some.injEq] at h
      subst h
      simp only [Option.getD]
      refine ⟨by simp, ?_, ?_, ?_, ?_⟩
      · rintro rfl rfl
        simp
      · rintro p r rfl rfl
        simp
      · rintro p rfl rfl
        simp
      · rintro r rfl rfl
        simp

/-- Witness for the amended C2 at the concrete departure entry above. -/
theorem C2_is_realtime_amended_witness :
    parseDep c2DepJson = some ⟨5, true⟩ ∧
      ((⟨5, true⟩ : Dep).realtime = true ↔
        (c2DepJson.departureTime.getD ⟨none, none, none⟩).timePlanned ≠
          (c2DepJson.departureTime.getD ⟨none, none, none⟩).timeReal) :=
  ⟨by decide, (C2_is_realtime_amended c2DepJson ⟨5, true⟩ (by decide)).1⟩

/-! ## Claim C3: defensive parsing defaults -/

/-- A payload whose single monitor carries one completely empty line entry. -/
def c3Payload : Payload := ⟨some ⟨some [⟨none, some [⟨none, none, none⟩]⟩]⟩⟩

/-- Counterexample to C3 as stated: a line entry with no name field yields
`line_name = "?"` (the code substitutes the placeholder `"?"`, not the empty
string the claim announces). -/
theorem C3_counterexample :
    (parsePayload c3Payload).map Monitor.name = [str "?"] ∧ str "?" ≠ str "" := by decide

/-- C3 (amended): `fetch_departures` tolerates any missing nested key or
array by substituting defaults — the placeholder string `"?"` for a missing
line name or direction (so a line entry with no name field yields line_name
`"?"`), the empty container for missing nested objects and arrays, and null
for a missing rbl — and a single malformed entry never causes the rest of
the batch to be dropped or an exception: parsing is entry-by-entry
(distributes over concatenation), a fully empty monitor entry yields no
records, a fully empty line entry yields the placeholder record with no
departures, and a departure without countdown is skipped without affecting
its neighbours. -/
theorem C3_defensive_defaults_amended :
    (∀ ms1 ms2 : List MonitorJson,
      parsePayload ⟨some ⟨some (ms1 ++ ms2)⟩⟩ =
        parsePayload ⟨some ⟨some ms1⟩⟩ ++ parsePayload ⟨some ⟨some ms2⟩⟩) ∧
    parseMonitor ⟨none, none⟩ = [] ∧
    (∀ rbl, parseLine rbl ⟨none, none, none⟩ = ⟨rbl, str "?", str "?", []⟩) ∧
    (∀ (ds1 ds2 : List DepJson) (d : DepJson),
      (d.departureTime.getD ⟨none, none, none⟩).countdown = none →
      parseDeps (ds1 ++ d :: ds2) = parseDeps ds1 ++ parseDeps ds2) := by
  refine ⟨?_, rfl, fun rbl => rfl, ?_⟩
  · intro ms1 ms2
    simp [parsePayload]
  · intro ds1 ds2 d hd
    have hnone : parseDep d = none := by
      rcases d with ⟨dto⟩
      rcases dto with _ | ⟨cd, tp, tr⟩
      · rfl
      · have hc : cd = none := hd
        subst hc
        rfl
    simp [parseDeps, List.filterMap_append, hnone]

/-- Witness for the amended C3 at concrete inputs: a batch of one empty
monitor next to the Karlsplatz payload monitors, and a countdown-free
departure between two valid ones. -/
theorem C3_defensive_defaults_amended_witness :
    parsePayload ⟨some ⟨some ([⟨none, none⟩] ++ [⟨none, some [⟨none, none, none⟩]⟩])⟩⟩ =
      parsePayload ⟨some ⟨some [⟨none, none⟩]⟩⟩ ++
        parsePayload ⟨some ⟨some [⟨none, some [⟨none, none, none⟩]⟩]⟩⟩ ∧
    parseDeps ([⟨some ⟨some 7, none, none⟩⟩] ++ (⟨some ⟨none, none, none⟩⟩ : DepJson) ::
        [⟨some ⟨some 2, none, none⟩⟩]) =
      parseDeps [⟨some ⟨some 7, none, none⟩⟩] ++ parseDeps [⟨some ⟨some 2, none, none⟩⟩] :=
  ⟨C3_defensive_defaults_amended.1 [⟨none, none⟩] [⟨none, some [⟨none, none, none⟩]⟩],
    C3_defensive_defaults_amended.2.2.2 [⟨some ⟨some 7, none, none⟩⟩]
      [⟨some ⟨some 2, none, none⟩⟩] ⟨some ⟨none, none, none⟩⟩ (by decide)⟩

/-! ## Claim C7: one StationView per configured station -/

/-- C7: for every input (including the empty monitor list a transport failure
produces), `group_by_station` returns exactly one StationView per configured
station, in configuration order; a station with no matching monitor keeps an
empty lines list; monitors whose rbl is null or matches no station are
dropped everywhere without error (removing them first changes nothing). -/
theorem C7_station_views :
    (∀ (monitors : List Monitor) (stations : List StationCfg),
      (group_by_station monitors stations).map StationView.name =
        stations.map StationCfg.name) ∧
    (∀ (monitors : List Monitor) (st : StationCfg),
      (∀ m ∈ monitors, monitorMatches st m = false) →
      (station_view monitors st).lines = []) ∧
    (∀ (monitors : List Monitor) (stations : List StationCfg),
      group_by_station monitors stations =
        group_by_station
          (monitors.filter (fun m => stations.any (fun st => monitorMatches st m))) stations) ∧
    (∀ (m : Monitor) (monitors : List Monitor) (stations : List StationCfg),
      m.rbl = none →
      group_by_station (m :: monitors) stations = group_by_station monitors stations) ∧
    (∀ stations : List StationCfg,
      ∀ sv ∈ group_by_station (fetch_departures none) stations, sv.lines = []) := by
  refine ⟨?_, ?_, ?_, ?_, ?_⟩
  · intro monitors stations
    simp [group_by_station, List.map_map, station_view, Function.comp]
  · intro monitors st h
    unfold station_view
    have hf : monitors.filter (monitorMatches st) = [] :=
      List.filter_eq_nil_iff.mpr (fun a ha => by simp [h a ha])
    rw [hf]
    rfl
  · intro monitors stations
    unfold group_by_station
    apply List.map_congr_left
    intro st hst
    unfold station_view
    have hfil : monitors.filter (monitorMatches st) =
        (monitors.filter (fun m => stations.any (fun s => monitorMatches s m))).filter
          (monitorMatches st) := by
      rw [List.filter_filter]
      apply List.filter_congr
      intro m _
      by_cases hmm : monitorMatches st m = true
      · have hany : stations.any (fun s => monitorMatches s m) = true :=
          List.any_eq_true.mpr ⟨st, hst, hmm⟩
        simp [hmm, hany]
      · simp only [Bool.not_eq_true] at hmm
        simp [hmm]
    rw [hfil]
  · intro m monitors stations hm
    unfold group_by_station
    apply List.map_congr_left
    intro st _
    unfold station_view
    rw [List.filter_cons_of_neg (by simp [monitorMatches, hm])]
  · intro stations sv hsv
    rcases List.mem_map.mp hsv with ⟨st, _, rfl⟩
    rfl

/-- Witness for C7 at concrete inputs: a station with a non-matching monitor
keeps an empty lines list. -/
theorem C7_station_views_witness :
    (∀ m ∈ [(⟨some 999, str "U4", str "X", []⟩ : Monitor)],
      monitorMatches ⟨str "S", [100]⟩ m = false) ∧
    (station_view [(⟨some 999, str "U4", str "X", []⟩ : Monitor)] ⟨str "S", [100]⟩).lines = [] :=
  ⟨by decide,
    C7_station_views.2.1 [⟨some 999, str "U4", str "X", []⟩] ⟨str "S", [100]⟩ (by decide)⟩

/-! ## Claim C1: departure order inside a merged line -/

theorem sortDeps_pairwise (l : List Dep) : (sortDeps l).Pairwise depLe :=
  List.sorted_insertionSort depLe l

theorem mergeLine_departures_pairwise {acc : List Monitor} {r : Monitor}
    (hacc : ∀ e ∈ acc, e.departures.Pairwise depLe)
    (hr : r.departures.Pairwise depLe) :
    ∀ e ∈ mergeLine acc r, e.departures.Pairwise depLe := by
  induction acc with
  | nil =>
    intro e he
    rcases List.mem_singleton.mp he with rfl
    exact hr
  | cons m rest ih =>
    intro e he
    rw [show mergeLine (m :: rest) r =
        if ciKey m = ciKey r then
          { m with departures := sortDeps (m.departures ++ r.departures) } :: rest
        else m :: mergeLine rest r from rfl] at he
    by_cases h : ciKey m = ciKey r
    · rw [if_pos h] at he
      rcases List.mem_cons.mp he with rfl | he2
      · exact sortDeps_pairwise _
      · exact hacc e (List.mem_cons_of_mem _ he2)
    · rw [if_neg h] at he
      rcases List.mem_cons.mp he with rfl | he2
      · exact hacc e (List.mem_cons_self _ _)
      · exact ih (fun x hx => hacc x (List.mem_cons_of_mem _ hx)) e he2

theorem dedupLines_aux_departures_pairwise :
    ∀ (ls acc : List Monitor),
      (∀ e ∈ acc, e.departures.Pairwise depLe) →
      (∀ m ∈ ls, m.departures.Pairwise depLe) →
      ∀ e ∈ ls.foldl mergeLine acc, e.departures.Pairwise depLe
  | [], _, hacc, _, e, he => hacc e he
  | r :: ls, acc, hacc, hls, e, he =>
    dedupLines_aux_departures_pairwise ls (mergeLine acc r)
      (mergeLine_departures_pairwise hacc (hls r (List.mem_cons_self _ _)))
      (fun m hm => hls m (List.mem_cons_of_mem _ hm)) e he

/-- A monitor whose own departure list arrives out of order. -/
def c1BadMonitor : Monitor := ⟨some 100, str "A", str "B", [⟨7, false⟩, ⟨2, false⟩]⟩

/-- Counterexample to C1 as stated: a line key that occurs in only one
monitor record is stored without re-sorting, so an input monitor whose
departures arrive as countdowns [7, 2] surfaces them as [7, 2] — not
non-decreasing. -/
theorem C1_counterexample :
    ∃ sv ∈ group_by_station [c1BadMonitor] [⟨str "S", [100]⟩],
      ∃ ld ∈ sv.lines, ¬ ld.departures.Pairwise depLe := by decide

/-- C1 (amended): the code re-sorts a departure list only when two records
merge, so the invariant holds under the assumption that each input monitor's
own departure list is already non-decreasing (as delivered by the provider):
then every LineDirection of every StationView — merged from one or many
records — has non-decreasing countdowns. -/
theorem C1_departures_sorted_amended :
    ∀ (monitors : List Monitor) (stations : List StationCfg),
      (∀ m ∈ monitors, m.departures.Pairwise depLe) →
      ∀ sv ∈ group_by_station monitors stations, ∀ ld ∈ sv.lines,
        ld.departures.Pairwise depLe := by
  intro monitors stations hmon sv hsv ld hld
  rcases List.mem_map.mp hsv with ⟨st, _, rfl⟩
  have hld2 : ld ∈ dedupLines (monitors.filter (monitorMatches st)) :=
    (List.perm_insertionSort lineLe _).mem_iff.mp hld
  exact dedupLines_aux_departures_pairwise _ [] (by simp)
    (fun m hm => hmon m (List.mem_of_mem_filter hm)) ld hld2

/-- A monitor whose departure list is already sorted. -/
def c1GoodMonitor : Monitor := ⟨some 100, str "A", str "B", [⟨2, false⟩, ⟨7, false⟩]⟩

/-- Witness for the amended C1 at a concrete sorted input. -/
theorem C1_departures_sorted_amended_witness :
    (∀ m ∈ [c1GoodMonitor], m.departures.Pairwise depLe) ∧
    (∀ sv ∈ group_by_station [c1GoodMonitor] [⟨str "S", [100]⟩],
      ∀ ld ∈ sv.lines, ld.departures.Pairwise depLe) :=
  ⟨by decide, C1_departures_sorted_amended [c1GoodMonitor] [⟨str "S", [100]⟩] (by decide)⟩

/-! ## Claim C6: strict line ordering and key uniqueness per station -/

/-- C6: in every StationView the line entries are strictly increasing in the
case-sensitive lexicographic order on the retained `(name, towards)` display
casing, and no two entries share a case-insensitive
`(upper(name), upper(towards))` key. -/
theorem C6_lines_strictly_ordered :
    ∀ (monitors : List Monitor) (stations : List StationCfg),
      ∀ sv ∈ group_by_station monitors stations,
        sv.lines.Pairwise lineLt ∧ (sv.lines.map ciKey).Nodup := by
  intro monitors stations sv hsv
  rcases List.mem_map.mp hsv with ⟨st, _, rfl⟩
  have hperm :
      List.Perm (List.insertionSort lineLe (dedupLines (monitors.filter (monitorMatches st))))
        (dedupLines (monitors.filter (monitorMatches st))) :=
    List.perm_insertionSort _ _
  have hnd : ((station_view monitors st).lines.map ciKey).Nodup :=
    ((hperm.map ciKey).nodup_iff).mpr (dedupLines_nodup_keys _)
  refine ⟨?_, hnd⟩
  have hsorted : (station_view monitors st).lines.Pairwise lineLe :=
    List.sorted_insertionSort lineLe _
  have hne : (station_view monitors st).lines.Pairwise (fun a b => ciKey a ≠ ciKey b) :=
    List.pairwise_map.mp hnd
  exact (hsorted.and hne).imp fun h => lineLt_of_lineLe_of_ciKey_ne h.1 h.2

/-- The monitors of the C6 witness: two distinct lines at one stop. -/
def c6Monitors : List Monitor :=
  [⟨some 100, str "U4", str "Karlsplatz", [⟨2, false⟩]⟩,
   ⟨some 100, str "A1", str "Stefansplatz", [⟨5, false⟩]⟩]

/-- Witness for C6 at a concrete two-line station. -/
theorem C6_lines_strictly_ordered_witness :
    (station_view c6Monitors ⟨str "S", [100]⟩).lines.Pairwise lineLt ∧
      ((station_view c6Monitors ⟨str "S", [100]⟩).lines.map ciKey).Nodup :=
  C6_lines_strictly_ordered c6Monitors [⟨str "S", [100]⟩] _
    (List.mem_singleton.mpr rfl)

/-! ## Claim C5: algebraic properties of the merge -/

theorem mergeLine_keys_mem (acc : List Monitor) (r : Monitor) (k : Str × Str) :
    k ∈ (mergeLine acc r).map ciKey ↔ (k ∈ acc.map ciKey ∨ k = ciKey r) := by
  rw [mergeLine_keys]
  by_cases hmem : ciKey r ∈ acc.map ciKey
  · rw [if_pos hmem]
    constructor
    · exact Or.inl
    · rintro (h | rfl)
      · exact h
      · exact hmem
  · rw [if_neg hmem]
    simp

theorem dedupLines_aux_keys_mem :
    ∀ (ls acc : List Monitor) (k : Str × Str),
      k ∈ (ls.foldl mergeLine acc).map ciKey ↔ (k ∈ acc.map ciKey ∨ k ∈ ls.map ciKey)
  | [], acc, k => by simp
  | r :: ls, acc, k => by
    rw [List.foldl_cons, dedupLines_aux_keys_mem ls (mergeLine acc r) k, mergeLine_keys_mem]
    simp only [List.map_cons, List.mem_cons]
    constructor
    · rintro ((h | rfl) | h)
      · exact Or.inl h
      · exact Or.inr (Or.inl rfl)
      · exact Or.inr (Or.inr h)
    · rintro (h | rfl | h)
      · exact Or.inl (Or.inl h)
      · exact Or.inl (Or.inr rfl)
      · exact Or.inr h

theorem dedupLines_keys_mem (ls : List Monitor) (k : Str × Str) :
    k ∈ (dedupLines ls).map ciKey ↔ k ∈ ls.map ciKey := by
  rw [dedupLines, dedupLines_aux_keys_mem]
  simp

/-- All departures that the input records with merge key `k` carry, in input
order: the reference value the merged entry for `k` must match up to
permutation. -/
def collectDeps (k : Str × Str) (ls : List Monitor) : List Dep :=
  (ls.filter (fun r => decide (ciKey r = k))).flatMap Monitor.departures

theorem collectDeps_append (k : Str × Str) (l1 l2 : List Monitor) :
    collectDeps k (l1 ++ l2) = collectDeps k l1 ++ collectDeps k l2 := by
  simp [collectDeps, List.filter_append]

theorem collectDeps_singleton (k : Str × Str) (r : Monitor) :
    collectDeps k [r] = if ciKey r = k then r.departures else [] := by
  by_cases h : ciKey r = k
  · simp [collectDeps, h]
  · simp [collectDeps, h]

theorem collectDeps_eq_nil_of_not_mem {k : Str × Str} {ls : List Monitor}
    (h : k ∉ ls.map ciKey) : collectDeps k ls = [] := by
  have : ls.filter (fun r => decide (ciKey r = k)) = [] :=
    List.filter_eq_nil_iff.mpr fun a ha => by
      simp only [decide_eq_true_eq]
      exact fun hk => h (hk ▸ List.mem_map_of_mem ciKey ha)
  simp [collectDeps, this]

theorem collectDeps_perm {ls ls' : List Monitor} (h : List.Perm ls ls') (k : Str × Str) :
    List.Perm (collectDeps k ls) (collectDeps k ls') :=
  (h.filter _).flatMap_right _

theorem mergeLine_collect {acc : List Monitor} {r : Monitor} {processed : List Monitor}
    (hnd : (acc.map ciKey).Nodup)
    (hi : ∀ e ∈ acc, List.Perm e.departures (collectDeps (ciKey e) processed))
    (hr : ciKey r ∉ acc.map ciKey → collectDeps (ciKey r) processed = []) :
    ∀ e ∈ mergeLine acc r, List.Perm e.departures (collectDeps (ciKey e) (processed ++ [r])) := by
  induction acc with
  | nil =>
    intro e he
    rcases List.mem_singleton.mp he with rfl
    rw [collectDeps_append, hr (by simp), collectDeps_singleton, if_pos rfl, List.nil_append]
  | cons m rest ih =>
    intro e he
    rw [show mergeLine (m :: rest) r =
        if ciKey m = ciKey r then
          { m with departures := sortDeps (m.departures ++ r.departures) } :: rest
        else m :: mergeLine rest r from rfl] at he
    simp only [List.map_cons, List.nodup_cons] at hnd
    by_cases h : ciKey m = ciKey r
    · rw [if_pos h] at he
      rcases List.mem_cons.mp he with rfl | he2
      · have hk : ciKey { m with departures := sortDeps (m.departures ++ r.departures) } =
            ciKey m := rfl
        rw [hk, collectDeps_append, collectDeps_singleton, if_pos h.symm]
        refine (List.perm_insertionSort depLe _).trans ?_
        exact (hi m (List.mem_cons_self _ _)).append_right r.departures
      · have hke : ciKey e ≠ ciKey r := by
          rw [← h]
          exact fun hh => hnd.1 (hh ▸ List.mem_map_of_mem ciKey he2)
        rw [collectDeps_append, collectDeps_singleton, if_neg (fun hh => hke hh.symm),
          List.append_nil]
        exact hi e (List.mem_cons_of_mem _ he2)
    · rw [if_neg h] at he
      rcases List.mem_cons.mp he with rfl | he2
      · rw [collectDeps_append, collectDeps_singleton, if_neg (fun hh => h hh.symm),
          List.append_nil]
        exact hi e (List.mem_cons_self _ _)
      · refine ih hnd.2 (fun x hx => hi x (List.mem_cons_of_mem _ hx)) ?_ e he2
        intro hnr
        refine hr ?_
        simp only [List.map_cons, List.mem_cons, not_or]
        exact ⟨fun hh => h hh.symm, hnr⟩

theorem mergeLine_collect_nil {acc : List Monitor} {r : Monitor} {processed : List Monitor}
    (hii : ∀ k, k ∉ acc.map ciKey → collectDeps k processed = []) :
    ∀ k, k ∉ (mergeLine acc r).map ciKey → collectDeps k (processed ++ [r]) = [] := by
  intro k hk
  rw [mergeLine_keys_mem, not_or] at hk
  rw [collectDeps_append, hii k hk.1, collectDeps_singleton,
    if_neg (fun hh => hk.2 hh.symm), List.append_nil]

theorem dedupLines_aux_collect :
    ∀ (ls acc processed : List Monitor),
      (acc.map ciKey).Nodup →
      (∀ e ∈ acc, List.Perm e.departures (collectDeps (ciKey e) processed)) →
      (∀ k, k ∉ acc.map ciKey → collectDeps k processed = []) →
      ∀ e ∈ ls.foldl mergeLine acc,
        List.Perm e.departures (collectDeps (ciKey e) (processed ++ ls))
  | [], _, _, _, hi, _, e, he => by simpa using hi e he
  | r :: ls, acc, processed, hnd, hi, hii, e, he => by
    have step := dedupLines_aux_collect ls (mergeLine acc r) (processed ++ [r])
      (mergeLine_nodup_keys hnd)
      (mergeLine_collect hnd hi (fun h => hii _ h))
      (mergeLine_collect_nil hii) e he
    rw [List.append_assoc] at step
    exact step

theorem dedupLines_collect (ls : List Monitor) :
    ∀ e ∈ dedupLines ls, List.Perm e.departures (collectDeps (ciKey e) ls) := by
  intro e he
  have step := dedupLines_aux_collect ls [] [] List.nodup_nil (by simp)
    (fun k _ => rfl) e he
  simpa using step

/-- The record used in the idempotence counterexample. -/
def c5Rec : Monitor := ⟨some 100, str "U4", str "X", [⟨2, false⟩]⟩

/-- A second record with the same case-insensitive key but other casing. -/
def c5RecB : Monitor := ⟨some 101, str "u4", str "X", [⟨7, true⟩]⟩

/-- Counterexample to C5 as stated: the merge is not idempotent — merging a
list with itself does not yield the merge-once result, because the code
concatenates departure lists without deduplicating them, so one record seen
twice doubles its departures. -/
theorem C5_counterexample :
    dedupLines [c5Rec, c5Rec] ≠ dedupLines [c5Rec] ∧
    (dedupLines [c5Rec, c5Rec]).map (fun e => e.departures.map Dep.countdown) = [[2, 2]] ∧
    (dedupLines [c5Rec]).map (fun e => e.departures.map Dep.countdown) = [[2]] := by decide

/-- C5 (amended): the merge is incremental — merging records `[A,B]` and then
`[C]` equals merging `[A,B,C]` in one pass (the fold just continues) — and
reordering the records preserves the set of case-insensitive keys and, for
every merged entry, the multiset of its departures; but it is not idempotent
(departures of a repeated record are duplicated, see the counterexample),
and reordering may change the retained first-seen casing and the order of
equal-countdown departures. -/
theorem C5_merge_incremental_amended :
    (∀ L M : List Monitor, dedupLines (L ++ M) = M.foldl mergeLine (dedupLines L)) ∧
    (∀ ls ls' : List Monitor, List.Perm ls ls' →
      ∀ k, (k ∈ (dedupLines ls).map ciKey ↔ k ∈ (dedupLines ls').map ciKey)) ∧
    (∀ ls ls' : List Monitor, List.Perm ls ls' →
      ∀ e ∈ dedupLines ls, ∃ e2 ∈ dedupLines ls', ciKey e2 = ciKey e ∧
        List.Perm e2.departures e.departures) := by
  refine ⟨?_, ?_, ?_⟩
  · intro L M
    simp [dedupLines, List.foldl_append]
  · intro ls ls' h k
    rw [dedupLines_keys_mem, dedupLines_keys_mem]
    exact (h.map ciKey).mem_iff
  · intro ls ls' h e he
    have h1 := dedupLines_collect ls e he
    have hk : ciKey e ∈ (dedupLines ls').map ciKey := by
      rw [dedupLines_keys_mem]
      refine (h.map ciKey).mem_iff.mp ?_
      rw [← dedupLines_keys_mem]
      exact List.mem_map_of_mem ciKey he
    rcases List.mem_map.mp hk with ⟨e2, he2, hke⟩
    refine ⟨e2, he2, hke, ?_⟩
    have h2 := dedupLines_collect ls' e2 he2
    rw [hke] at h2
    exact h2.trans ((collectDeps_perm h.symm (ciKey e)).trans h1.symm)

/-- Witness for the amended C5 at two same-key records in both orders. -/
theorem C5_merge_incremental_amended_witness :
    dedupLines ([c5Rec] ++ [c5RecB]) = List.foldl mergeLine (dedupLines [c5Rec]) [c5RecB] ∧
    (ciKey c5Rec ∈ (dedupLines [c5Rec, c5RecB]).map ciKey ↔
      ciKey c5Rec ∈ (dedupLines [c5RecB, c5Rec]).map ciKey) :=
  ⟨C5_merge_incremental_amended.1 [c5Rec] [c5RecB],
    C5_merge_incremental_amended.2.1 [c5Rec, c5RecB] [c5RecB, c5Rec]
      (List.Perm.swap c5RecB c5Rec []) (ciKey c5Rec)⟩

/-! ## Claim C9: direction truncation -/

theorem truncLoop_spec (w : Str → Nat) (maxW : Nat) :
    ∀ (fuel : Nat) (d : Str), d.length ≤ fuel + 3 →
      (∃ stem, truncLoop w maxW fuel d = stem ++ [ellipsisChar] ∧ 3 ≤ stem.length ∧
        stem.length < d.length ∧ w (stem ++ [ellipsisChar]) ≤ maxW) ∨
      (truncLoop w maxW fuel d = d.take 3 ∧
        ∀ n, 3 ≤ n → n < d.length → maxW < w (d.take n ++ [ellipsisChar])) := by
  intro fuel
  induction fuel with
  | zero =>
    intro d hd
    refine Or.inr ⟨(List.take_of_length_le hd).symm, ?_⟩
    intro n h3 hn
    omega
  | succ fuel ih =>
    intro d hd
    rw [show truncLoop w maxW (fuel + 1) d =
        if d.length > 3 then
          if w (d.dropLast ++ [ellipsisChar]) ≤ maxW then d.dropLast ++ [ellipsisChar]
          else truncLoop w maxW fuel d.dropLast
        else d from rfl]
    by_cases hlen : d.length > 3
    · rw [if_pos hlen]
      by_cases hfit : w (d.dropLast ++ [ellipsisChar]) ≤ maxW
      · rw [if_pos hfit]
        refine Or.inl ⟨d.dropLast, rfl, ?_, ?_, hfit⟩
        · rw [List.length_dropLast]
          omega
        · rw [List.length_dropLast]
          omega
      · rw [if_neg hfit]
        have hd2 : d.dropLast.length ≤ fuel + 3 := by
          rw [List.length_dropLast]
          omega
        rcases ih d.dropLast hd2 with ⟨stem, heq, h3, hlt, hw⟩ | ⟨heq, hrange⟩
        · refine Or.inl ⟨stem, heq, h3, ?_, hw⟩
          rw [List.length_dropLast] at hlt
          omega
        · refine Or.inr ⟨?_, ?_⟩
          · rw [heq, List.dropLast_eq_take, List.take_take]
            congr 1
            omega
          · intro n h3 hn
            rcases Nat.lt_or_ge n (d.length - 1) with hcase | hcase
            · have hn2 : n < d.dropLast.length := by
                rw [List.length_dropLast]
                omega
              have := hrange n h3 hn2
              rw [List.dropLast_eq_take, List.take_take] at this
              have hmin : min n (d.length - 1) = n := by omega
              rw [hmin] at this
              exact this
            · have hn3 : n = d.length - 1 := by omega
              have : d.take n = d.dropLast := by
                rw [List.dropLast_eq_take, hn3]
              rw [this]
              omega
    · rw [if_neg hlen]
      have hd3 : d.length ≤ 3 := by omega
      refine Or.inr ⟨(List.take_of_length_le hd3).symm, ?_⟩
      intro n h3 hn
      omega

/-- A width function under which no string fits. -/
def wConst : Str → Nat := fun _ => 1000

/-- Counterexample to C9 as stated: when even the 3-character stem does not
fit with the ellipsis, the loop exits by exhausting the length bound and
returns the bare 3-character prefix — the rendered text does not end in an
ellipsis. -/
theorem C9_counterexample :
    wConst (str "Hello") > 10 ∧
    fitDirection wConst 10 (str "Hello") = str "Hel" ∧
    (str "Hel").getLast? ≠ some ellipsisChar := by decide

/-- C9 (amended): for a direction wider than the available width, either some
prefix of at least 3 characters fits together with the ellipsis — then the
result is that prefix plus ellipsis: it ends in the ellipsis, keeps a stem of
at least 3 characters, is strictly shorter than the original and fits within
the width — or no prefix of length 3 up to one-less-than-full fits, and the
result is the bare first 3 characters without an ellipsis. -/
theorem C9_truncation_amended (w : Str → Nat) (maxW : Nat) (dir : Str)
    (h : w dir > maxW) :
    (∃ stem, fitDirection w maxW dir = stem ++ [ellipsisChar] ∧ 3 ≤ stem.length ∧
      stem.length < dir.length ∧ w (stem ++ [ellipsisChar]) ≤ maxW) ∨
    (fitDirection w maxW dir = dir.take 3 ∧
      ∀ n, 3 ≤ n → n < dir.length → maxW < w (dir.take n ++ [ellipsisChar])) := by
  unfold fitDirection
  rw [if_pos h]
  exact truncLoop_spec w maxW dir.length dir (by omega)

/-- A width function of ten pixels per character. -/
def wTenPerChar : Str → Nat := fun s => 10 * s.length

/-- Witness for the amended C9 at a concrete over-wide direction. -/
theorem C9_truncation_amended_witness :
    wTenPerChar (str "Heiligenstadt") > 100 ∧
    ((∃ stem, fitDirection wTenPerChar 100 (str "Heiligenstadt") = stem ++ [ellipsisChar] ∧
        3 ≤ stem.length ∧ stem.length < (str "Heiligenstadt").length ∧
        wTenPerChar (stem ++ [ellipsisChar]) ≤ 100) ∨
      (fitDirection wTenPerChar 100 (str "Heiligenstadt") = (str "Heiligenstadt").take 3 ∧
        ∀ n, 3 ≤ n → n < (str "Heiligenstadt").length →
          100 < wTenPerChar ((str "Heiligenstadt").take n ++ [ellipsisChar]))) :=
  ⟨by decide, C9_truncation_amended wTenPerChar 100 (str "Heiligenstadt") (by decide)⟩
